import Mathlib

/-!
Verification of loner.py, a doublet-detection pipeline for single-cell
RNA sequencing data.  The script simulates synthetic doublets from pairs of
real cells, trains a VAE and a classifier (both delegated to the external
scvi library), scores every cell, and thresholds the scores into hard calls.

We shallow-embed the arithmetic and data-flow of the script:
  - an expression matrix is a list of rows (cells), each row a list of ℚ
    (counts are non-negative integers in practice; numpy float arithmetic
    on them is modelled exactly by ℚ);
  - numpy elementwise operations become List.zipWith / List.map;
  - Python int() truncation toward zero becomes pyInt;
  - fallible steps (failed assert statements, numpy ValueError) return
    Option, with none marking the raised exception;
  - external library behaviour that the script relies on (the scvi
    GeneExpressionDataset label handling, scipy multinomial sampling,
    numpy argpartition) is modelled by definitions whose doc comments
    state exactly what is being modelled.
-/

/-- Row i of an expression matrix; numpy indexing X[i, :]. -/
def row (X : List (List ℚ)) (i : Nat) : List ℚ :=
  X.getD i []

/-- Translation of create_average_doublet: (X[i, :] + X[j, :]).astype(float64) / 2.
    Integer counts and halving are exact in float64 for realistic data, so ℚ
    models the arithmetic exactly. -/
def create_average_doublet (X : List (List ℚ)) (i j : Nat) : List ℚ :=
  (List.zipWith (· + ·) (row X i) (row X j)).map (· / 2)

/-- Translation of create_summed_doublet: (X[i, :] + X[j, :]).astype(float64). -/
def create_summed_doublet (X : List (List ℚ)) (i j : Nat) : List ℚ :=
  List.zipWith (· + ·) (row X i) (row X j)

/-- Python int() applied to an exact rational: truncation toward zero. -/
def pyInt (q : ℚ) : Int :=
  Int.tdiv q.num q.den

/-- Per-cell total count summed across genes; the cell_depths array computed
    in main as singlet_scvi_data.X.sum(axis=1). -/
def cellDepths (X : List (List ℚ)) : List ℚ :=
  X.map (fun r => r.sum)

/-- Parameters handed to scipy.stats.multinomial.rvs by
    create_multinomial_doublet: the number of trials n and the probability
    vector p. -/
structure MultinomialParams where
  n : Int
  p : List ℚ
  deriving Repr, DecidableEq

/-- Translation of create_multinomial_doublet: add the two rows, normalize
    to a probability vector, choose the depth
    dd = int(doublet_depth * (cell_depths[i] + cell_depths[j]) / 2), and
    sample counts from multinomial(n = dd, p = dp).  The deterministic part
    is the parameter computation, returned here. -/
def create_multinomial_doublet (X : List (List ℚ)) (i j : Nat)
    (doublet_depth : ℚ) (cell_depths : List ℚ) : MultinomialParams :=
  let dp0 := List.zipWith (· + ·) (row X i) (row X j)
  let dp := dp0.map (· / dp0.sum)
  let dd := pyInt (doublet_depth * (cell_depths.getD i 0 + cell_depths.getD j 0) / 2)
  ⟨dd, dp⟩

/-- Modelled from scipy: every vector returned by multinomial.rvs(n, p) is a
    vector of counts with one entry per category of p whose entries sum
    to n.  Membership in the support of that distribution. -/
def multinomialSupportMem (params : MultinomialParams) (v : List Nat) : Prop :=
  v.length = params.p.length ∧ (v.sum : Int) = params.n

instance (params : MultinomialParams) (v : List Nat) :
    Decidable (multinomialSupportMem params v) := by
  unfold multinomialSupportMem; infer_instance

/-- Recognized data sources of main: a .loom file or a .h5ad file. -/
inductive DataSource where
  | loom : DataSource
  | h5ad : DataSource
  deriving Repr, DecidableEq

/-- Translation of the file-format dispatch in main: on extension .loom a
    LoomDataset is loaded, on .h5ad an AnnDataset; any other extension only
    prints a message, leaving the dataset variable unbound (the undefined
    state).  The result pairs the printed messages with the optionally
    bound dataset; no branch exits the program. -/
def loadDataStep (ext : String) : List String × Option DataSource :=
  if ext = ".loom" then ([], some DataSource.loom)
  else if ext = ".h5ad" then ([], some DataSource.h5ad)
  else (["Unrecognized file format"], none)

/-- C3: an extension that is neither .loom nor .h5ad makes main print
    the message Unrecognized file format and continue with no dataset bound,
    rather than exit with a structured error. -/
theorem unrecognized_format_prints_and_proceeds (ext : String)
    (h1 : ext ≠ ".loom") (h2 : ext ≠ ".h5ad") :
    loadDataStep ext = (["Unrecognized file format"], none) := by
  unfold loadDataStep
  rw [if_neg h1, if_neg h2]

/-- Witness for C3 at the concrete extension .csv. -/
theorem unrecognized_format_prints_and_proceeds_witness :
    loadDataStep ".csv" = (["Unrecognized file format"], none) :=
  unrecognized_format_prints_and_proceeds ".csv" (by decide) (by decide)

/-- Entry g of a zipWith, as a getD fact. -/
theorem zipWith_getD_of_lt {α β γ : Type} (f : α → β → γ) (da : α) (db : β) (dc : γ) :
    ∀ (l1 : List α) (l2 : List β) (g : Nat), g < l1.length → g < l2.length →
      (List.zipWith f l1 l2).getD g dc = f (l1.getD g da) (l2.getD g db)
  | [], _, g, h1, _ => absurd h1 (by simp)
  | _ :: _, [], g, _, h2 => absurd h2 (by simp)
  | a :: l1, b :: l2, 0, _, _ => rfl
  | a :: l1, b :: l2, g + 1, h1, h2 => by
      simpa using zipWith_getD_of_lt f da db dc l1 l2 g
        (Nat.lt_of_succ_lt_succ h1) (Nat.lt_of_succ_lt_succ h2)

/-- Entry g of a mapped list, as a getD fact. -/
theorem map_getD_of_lt {α β : Type} (f : α → β) (dα : α) (dβ : β) :
    ∀ (l : List α) (g : Nat), g < l.length →
      (l.map f).getD g dβ = f (l.getD g dα)
  | [], g, h => absurd h (by simp)
  | a :: l, 0, _ => rfl
  | a :: l, g + 1, h => by
      simpa using map_getD_of_lt f dα dβ l g (Nat.lt_of_succ_lt_succ h)

/-- C4: entry g of the average-type doublet is the mean of the two
    constituent entries, and entry g of the sum-type doublet is their sum. -/
theorem average_and_summed_doublet_entries (X : List (List ℚ)) (i j g : Nat)
    (hgi : g < (row X i).length) (hgj : g < (row X j).length) :
    (create_average_doublet X i j).getD g 0
        = ((row X i).getD g 0 + (row X j).getD g 0) / 2
    ∧ (create_summed_doublet X i j).getD g 0
        = (row X i).getD g 0 + (row X j).getD g 0 := by
  have hz : g < (List.zipWith (· + ·) (row X i) (row X j)).length := by
    rw [List.length_zipWith]; exact lt_min hgi hgj
  constructor
  · unfold create_average_doublet
    rw [map_getD_of_lt _ 0 0 _ _ hz, zipWith_getD_of_lt _ 0 0 0 _ _ _ hgi hgj]
  · unfold create_summed_doublet
    rw [zipWith_getD_of_lt _ 0 0 0 _ _ _ hgi hgj]

/-- Witness for C4 on the matrix [[1, 2], [3, 5]] at cells 0 and 1, gene 1. -/
theorem average_and_summed_doublet_entries_witness :
    (create_average_doublet [[1, 2], [3, 5]] 0 1).getD 1 0
        = ((row [[1, 2], [3, 5]] 0).getD 1 0 + (row [[1, 2], [3, 5]] 1).getD 1 0) / 2
    ∧ (create_summed_doublet [[1, 2], [3, 5]] 0 1).getD 1 0
        = (row [[1, 2], [3, 5]] 0).getD 1 0 + (row [[1, 2], [3, 5]] 1).getD 1 0 :=
  average_and_summed_doublet_entries [[1, 2], [3, 5]] 0 1 1 (by decide) (by decide)

/-- Evaluation of pyInt on an integral rational. -/
theorem pyInt_intCast (n : Int) : pyInt (n : ℚ) = n := by
  unfold pyInt
  simp

/-- Evaluation of pyInt at 1. -/
theorem pyInt_one : pyInt 1 = 1 := by
  rw [show (1 : ℚ) = ((1 : Int) : ℚ) by norm_num, pyInt_intCast]

/-- Entries of an elementwise sum of two entrywise non-negative lists are
    non-negative. -/
theorem zipWith_add_nonneg :
    ∀ (l1 l2 : List ℚ), (∀ x ∈ l1, 0 ≤ x) → (∀ x ∈ l2, 0 ≤ x) →
      ∀ x ∈ List.zipWith (· + ·) l1 l2, 0 ≤ x
  | [], _, _, _ => by simp
  | _ :: _, [], _, _ => by simp
  | a :: l1, b :: l2, h1, h2 => by
    intro x hx
    rcases List.mem_cons.mp hx with hx | hx
    · subst hx
      exact add_nonneg (h1 a (List.mem_cons_self a l1)) (h2 b (List.mem_cons_self b l2))
    · exact zipWith_add_nonneg l1 l2
        (fun y hy => h1 y (List.mem_cons_of_mem a hy))
        (fun y hy => h2 y (List.mem_cons_of_mem b hy)) x hx

/-- Dividing every entry by s divides the sum by s. -/
theorem sum_map_div (l : List ℚ) (s : ℚ) : (l.map (· / s)).sum = l.sum / s := by
  induction l with
  | nil => simp
  | cons a l ih => simp [ih, add_div]

/-- Entry i of cellDepths is the total count of cell i. -/
theorem cellDepths_getD (X : List (List ℚ)) (i : Nat) :
    (cellDepths X).getD i 0 = (row X i).sum := by
  by_cases h : i < X.length
  · unfold cellDepths row
    exact map_getD_of_lt (fun r => r.sum) [] 0 X i h
  · push_neg at h
    unfold cellDepths row
    rw [List.getD_eq_default, List.getD_eq_default]
    · simp
    · exact h
    · simpa using h

/-- C5: with non-negative counts and a nonzero combined count, the
    multinomial parameters built by create_multinomial_doublet with the
    cell_depths of main satisfy: every vector in the support of the sampled
    multinomial sums to int(doublet_depth * (depth_i + depth_j) / 2) where
    depth_c is the total count of cell c, the probability vector sums to 1,
    and each probability is proportional to the combined count of the gene. -/
theorem multinomial_doublet_spec (X : List (List ℚ)) (i j : Nat)
    (doublet_depth : ℚ) (v : List Nat)
    (hnni : ∀ x ∈ row X i, 0 ≤ x) (hnnj : ∀ x ∈ row X j, 0 ≤ x)
    (hnz : ∃ x ∈ List.zipWith (· + ·) (row X i) (row X j), x ≠ 0)
    (hv : multinomialSupportMem
            (create_multinomial_doublet X i j doublet_depth (cellDepths X)) v) :
    (v.sum : Int) = pyInt (doublet_depth * ((row X i).sum + (row X j).sum) / 2)
    ∧ (create_multinomial_doublet X i j doublet_depth (cellDepths X)).p.sum = 1
    ∧ ∀ g, g < (row X i).length → g < (row X j).length →
        (create_multinomial_doublet X i j doublet_depth (cellDepths X)).p.getD g 0
            * (List.zipWith (· + ·) (row X i) (row X j)).sum
          = (row X i).getD g 0 + (row X j).getD g 0 := by
  have hnn : ∀ x ∈ List.zipWith (· + ·) (row X i) (row X j), 0 ≤ x :=
    zipWith_add_nonneg (row X i) (row X j) hnni hnnj
  have hnz : (List.zipWith (· + ·) (row X i) (row X j)).sum ≠ 0 := by
    obtain ⟨x, hx, hxne⟩ := hnz
    have hxpos : 0 < x := lt_of_le_of_ne (hnn x hx) (Ne.symm hxne)
    have hle : x ≤ (List.zipWith (· + ·) (row X i) (row X j)).sum :=
      List.single_le_sum hnn x hx
    exact ne_of_gt (lt_of_lt_of_le hxpos hle)
  refine ⟨?_, ?_, ?_⟩
  · rw [hv.2]
    unfold create_multinomial_doublet
    rw [cellDepths_getD, cellDepths_getD]
  · unfold create_multinomial_doublet multinomialSupportMem at *
    simp only
    rw [sum_map_div, div_self hnz]
  · intro g hgi hgj
    have hz : g < (List.zipWith (· + ·) (row X i) (row X j)).length := by
      rw [List.length_zipWith]; exact lt_min hgi hgj
    unfold create_multinomial_doublet
    simp only
    rw [map_getD_of_lt _ 0 0 _ _ hz, zipWith_getD_of_lt _ 0 0 0 _ _ _ hgi hgj,
        div_mul_cancel₀ _ hnz]

/-- Witness for C5 on the matrix [[1, 2], [3, 4]], cells 0 and 1 combined at
    doublet depth 1 and the sample [2, 3]. -/
theorem multinomial_doublet_spec_witness :
    ((([2, 3] : List Nat).sum : Int)
        = pyInt (1 * ((row [[1, 2], [3, 4]] 0).sum + (row [[1, 2], [3, 4]] 1).sum) / 2))
    ∧ (create_multinomial_doublet [[1, 2], [3, 4]] 0 1 1 (cellDepths [[1, 2], [3, 4]])).p.sum = 1 := by
  have h := multinomial_doublet_spec [[1, 2], [3, 4]] 0 1 1 [2, 3]
    (by norm_num [row]) (by norm_num [row]) (by norm_num [row])
    (by
      refine ⟨by norm_num [create_multinomial_doublet, row], ?_⟩
      show ((5 : Nat) : Int) = (create_multinomial_doublet [[1, 2], [3, 4]] 0 1 1
        (cellDepths [[1, 2], [3, 4]])).n
      have harg : ((1 : ℚ) * ((cellDepths [[1, 2], [3, 4]]).getD 0 0
          + (cellDepths [[1, 2], [3, 4]]).getD 1 0) / 2) = ((5 : Int) : ℚ) := by
        norm_num [cellDepths, row]
      show ((5 : Nat) : Int) = pyInt ((1 : ℚ) * ((cellDepths [[1, 2], [3, 4]]).getD 0 0
          + (cellDepths [[1, 2], [3, 4]]).getD 1 0) / 2)
      rw [harg, pyInt_intCast]
      decide)
  exact ⟨h.1, h.2.1⟩

/-- Translation of the known-doublets handling in main: with a -k file the
    entries are read and the script asserts that their number equals the
    number of cells of the expression matrix (a failed assert raises, giving
    none); the rows flagged true are split off and the singlet matrix keeps
    the rows flagged false (X[~known_doublets]).  Without a -k file every
    cell counts as a singlet.  Returns the known-doublet flags and the
    singlet matrix. -/
def prepareSinglets (X : List (List ℚ)) (known : Option (List Bool)) :
    Option (List Bool × List (List ℚ)) :=
  match known with
  | none => some (List.replicate X.length false, X)
  | some kd =>
      if kd.length = X.length then
        some (kd, ((X.zip kd).filter (fun p => !p.2)).map (fun p => p.1))
      else none

/-- Number of rows flagged true; known_doublet_data.X.shape[0]. -/
def countTrue (l : List Bool) : Nat :=
  l.count true

/-- Number of rows flagged false; the singlet count under a -k file. -/
def countFalse (l : List Bool) : Nat :=
  l.count false

/-- Translation of the doublet-count computation in main:
    num_doublets = int(doublet_ratio * singlet_num_cells); when a -k file is
    present the known-doublet count is subtracted and
    assert num_doublets >= 0 runs (none on failure).  Without a -k file no
    assert guards the count. -/
def numDoubletsStage (ratio : ℚ) (X : List (List ℚ)) (known : Option (List Bool)) :
    Option Int :=
  (prepareSinglets X known).bind (fun pr =>
    let nd := pyInt (ratio * (pr.2.length : ℚ))
    match known with
    | some _ =>
        let ndk := nd - (countTrue pr.1 : Int)
        if 0 ≤ ndk then some ndk else none
    | none => some nd)

/-- C7: with a known-doublets file the script asserts that the number of
    entries read equals the number of cells of the expression matrix; on a
    mismatch the AssertionError stops the run at that point, so the
    doublet-count stage (and everything after it: doublet synthesis,
    classifier training) never runs. -/
theorem known_doublets_length_assert (X : List (List ℚ)) (kd : List Bool) (ratio : ℚ) :
    ((prepareSinglets X (some kd)).isSome ↔ kd.length = X.length)
    ∧ (kd.length ≠ X.length → prepareSinglets X (some kd) = none
        ∧ numDoubletsStage ratio X (some kd) = none) := by
  constructor
  · unfold prepareSinglets
    by_cases h : kd.length = X.length <;> simp [h]
  · intro h
    have hp : prepareSinglets X (some kd) = none := by
      unfold prepareSinglets
      simp [h]
    exact ⟨hp, by unfold numDoubletsStage; rw [hp]; rfl⟩

/-- Witness for C7 with a two-entry known-doublets file against a one-cell
    matrix. -/
theorem known_doublets_length_assert_witness :
    ((prepareSinglets [[1]] (some [true, false])).isSome
        ↔ [true, false].length = ([[1]] : List (List ℚ)).length)
    ∧ ([true, false].length ≠ ([[1]] : List (List ℚ)).length →
        prepareSinglets [[1]] (some [true, false]) = none
        ∧ numDoubletsStage 1 [[1]] (some [true, false]) = none) :=
  known_doublets_length_assert [[1]] [true, false] 1

/-- Length of the singlet matrix under a -k file of matching length: the
    number of false flags. -/
theorem singlet_length_eq_countFalse :
    ∀ (X : List (List ℚ)) (kd : List Bool), kd.length = X.length →
      (((X.zip kd).filter (fun p => !p.2)).map (fun p => p.1)).length = countFalse kd
  | [], [], _ => rfl
  | [], _ :: _, h => absurd h (by simp)
  | _ :: _, [], h => absurd h (by simp)
  | x :: X, b :: kd, h => by
    have ih := singlet_length_eq_countFalse X kd (by simpa using h)
    cases b <;> simp [countFalse, List.count_cons] at ih ⊢ <;> omega

/-- C6 amended: the simulated-doublet count is
    int(doublet_ratio * number of singlet cells); when a known-doublets file
    is supplied the known-doublet count is subtracted and the result is
    asserted non-negative before any doublet is synthesized; without such a
    file the count int(doublet_ratio * number of cells) is used unchecked. -/
theorem doublet_count_spec (ratio : ℚ) (X : List (List ℚ)) (kd : List Bool) (nd : Int)
    (hlen : kd.length = X.length) :
    numDoubletsStage ratio X none = some (pyInt (ratio * (X.length : ℚ)))
    ∧ (numDoubletsStage ratio X (some kd) = some nd →
        nd = pyInt (ratio * (countFalse kd : ℚ)) - (countTrue kd : Int) ∧ 0 ≤ nd) := by
  constructor
  · unfold numDoubletsStage prepareSinglets
    rfl
  · intro h
    simp only [numDoubletsStage, prepareSinglets, if_pos hlen, Option.some_bind] at h
    rw [singlet_length_eq_countFalse X kd hlen] at h
    by_cases hge : 0 ≤ pyInt (ratio * (countFalse kd : ℚ)) - (countTrue kd : Int)
    · rw [if_pos hge] at h
      cases h
      exact ⟨rfl, hge⟩
    · rw [if_neg hge] at h
      cases h

/-- Witness for C6 with ratio 1 on a two-cell matrix, one cell flagged as a
    known doublet. -/
theorem doublet_count_spec_witness :
    numDoubletsStage 1 [[1], [2]] none = some (pyInt (1 * ((([[1], [2]] : List (List ℚ)).length : Nat) : ℚ)))
    ∧ ((0 : Int) = pyInt (1 * (countFalse [false, true] : ℚ)) - (countTrue [false, true] : Int)
        ∧ (0 : Int) ≤ 0) := by
  have h := doublet_count_spec 1 [[1], [2]] [false, true] 0 (by decide)
  refine ⟨h.1, ?_, le_refl 0⟩
  have hrun : numDoubletsStage 1 [[1], [2]] (some [false, true]) = some 0 := by
    unfold numDoubletsStage prepareSinglets
    simp [pyInt_one, countTrue]
  exact (h.2 hrun).1

/-- Counterexample for C6 as stated: with no known-doublets file and a
    negative doublet ratio the count int(doublet_ratio * cells) is negative
    and no assert guards it; the subsequent np.zeros call raises a
    ValueError, not an AssertionError. -/
theorem doublet_count_assert_counterexample :
    numDoubletsStage (-1) [[0], [0]] none = some (-2) ∧ ¬ (0 ≤ (-2 : Int)) := by
  refine ⟨?_, by decide⟩
  show some (pyInt ((-1 : ℚ) * ((2 : Nat) : ℚ))) = some (-2)
  rw [show ((-1 : ℚ) * ((2 : Nat) : ℚ)) = ((-2 : Int) : ℚ) by norm_num, pyInt_intCast]

/-- Soft scores persisted for real cells: order_score[:num_cells],
    written to scores.npy. -/
def scoresOut (orderScore : List ℚ) (numCells : Nat) : List ℚ :=
  orderScore.take numCells

/-- Soft scores persisted for simulated doublets: order_score[num_cells:],
    written to scores_sim.npy. -/
def scoresSimOut (orderScore : List ℚ) (numCells : Nat) : List ℚ :=
  orderScore.drop numCells

/-- Hard predictions persisted for real cells: order_pred[:num_cells],
    written to preds.npy. -/
def predsOut (orderPred : List Nat) (numCells : Nat) : List Nat :=
  orderPred.take numCells

/-- Hard predictions persisted for simulated doublets: order_pred[num_cells:],
    written to preds_sim.npy. -/
def predsSimOut (orderPred : List Nat) (numCells : Nat) : List Nat :=
  orderPred.drop numCells

/-- Translation of is_loner_doublet = order_score > threshold: elementwise
    strict comparison over all scored cells. -/
def isLonerDoublet (orderScore : List ℚ) (threshold : ℚ) : List Bool :=
  orderScore.map (fun s => decide (threshold < s))

/-- Translation of the final flag update in main: is_doublet starts as the
    known-doublet flags; new_doublets_idx = where(~is_doublet &
    is_loner_doublet[:num_cells]) and those indices are set to True. -/
def finalIsDoublet (known : List Bool) (lonerReal : List Bool) : List Bool :=
  List.zipWith (fun k l => k || (!k && l)) known lonerReal

/-- Persisted is_doublet.npy: is_doublet[:num_cells]. -/
def isDoubletOut (isDoublet : List Bool) (numCells : Nat) : List Bool :=
  isDoublet.take numCells

/-- Persisted is_doublet_sim.npy: is_doublet[num_cells:]. -/
def isDoubletSimOut (isDoublet : List Bool) (numCells : Nat) : List Bool :=
  isDoublet.drop numCells

/-- Entries of a take, as a getD fact. -/
theorem take_getD {α : Type} (d : α) :
    ∀ (l : List α) (n c : Nat), c < n → (l.take n).getD c d = l.getD c d
  | [], n, c, _ => by simp
  | a :: l, n + 1, 0, _ => rfl
  | a :: l, n + 1, c + 1, h => by
      simpa using take_getD d l n c (Nat.lt_of_succ_lt_succ h)

/-- C8: the per-real-cell outputs scores.npy, preds.npy and is_doublet.npy
    all have length num_cells, the number of cells of the input expression
    matrix, given that the classifier scores the concatenated dataset of
    num_cells real cells and num_doublets simulated ones. -/
theorem real_output_lengths (orderScore : List ℚ) (orderPred : List Nat)
    (known : List Bool) (t : ℚ) (numCells numDoublets : Nat)
    (hs : orderScore.length = numCells + numDoublets)
    (hp : orderPred.length = numCells + numDoublets)
    (hk : known.length = numCells) :
    (scoresOut orderScore numCells).length = numCells
    ∧ (predsOut orderPred numCells).length = numCells
    ∧ (isDoubletOut
        (finalIsDoublet known ((isLonerDoublet orderScore t).take numCells))
        numCells).length = numCells := by
  refine ⟨?_, ?_, ?_⟩ <;>
    simp [scoresOut, predsOut, isDoubletOut, finalIsDoublet, isLonerDoublet,
          List.length_take, List.length_zipWith, hs, hp, hk]

/-- Witness for C8 with two real cells and one simulated doublet. -/
theorem real_output_lengths_witness :
    (scoresOut [3/5, 2/5, 7/10] 2).length = 2
    ∧ (predsOut [1, 0, 1] 2).length = 2
    ∧ (isDoubletOut
        (finalIsDoublet [true, false] ((isLonerDoublet [3/5, 2/5, 7/10] (1/2)).take 2))
        2).length = 2 :=
  real_output_lengths [3/5, 2/5, 7/10] [1, 0, 1] [true, false] (1/2) 2 1
    (by decide) (by decide) (by decide)

/-- C9: the final is_doublet flags keep every known doublet set to True, and
    a cell is newly flagged only when its score strictly exceeds the
    threshold: post-processing adds calls and never clears one. -/
theorem known_doublet_flags_preserved (known : List Bool) (orderScore : List ℚ)
    (t : ℚ) (numCells : Nat) (c : Nat)
    (hk : known.length = numCells) (hs : numCells ≤ orderScore.length)
    (hc : c < numCells) :
    (known.getD c false = true →
      (finalIsDoublet known ((isLonerDoublet orderScore t).take numCells)).getD c false = true)
    ∧ ((finalIsDoublet known ((isLonerDoublet orderScore t).take numCells)).getD c false = true →
        known.getD c false = true ∨ t < orderScore.getD c 0) := by
  have hck : c < known.length := by omega
  have hcs : c < orderScore.length := by omega
  have hcl : c < ((isLonerDoublet orderScore t).take numCells).length := by
    simp [isLonerDoublet, List.length_take]
    omega
  have hfin : (finalIsDoublet known ((isLonerDoublet orderScore t).take numCells)).getD c false
      = (known.getD c false
          || (!(known.getD c false) && ((isLonerDoublet orderScore t).take numCells).getD c false)) :=
    zipWith_getD_of_lt _ false false false _ _ c hck hcl
  have hlon : ((isLonerDoublet orderScore t).take numCells).getD c false
      = decide (t < orderScore.getD c 0) := by
    rw [take_getD _ _ _ _ hc]
    exact map_getD_of_lt _ 0 false _ _ hcs
  constructor
  · intro h
    rw [hfin, h]
    rfl
  · intro h
    rw [hfin, hlon] at h
    rcases Bool.or_eq_true_iff.mp h with h | h
    · exact Or.inl h
    · exact Or.inr (of_decide_eq_true (Bool.and_eq_true_iff.mp h).2)

/-- Witness for C9 with two real cells at index 0. -/
theorem known_doublet_flags_preserved_witness :
    ([true, false].getD 0 false = true →
      (finalIsDoublet [true, false] ((isLonerDoublet [3/10, 2/5, 7/10] (1/2)).take 2)).getD 0 false = true)
    ∧ ((finalIsDoublet [true, false] ((isLonerDoublet [3/10, 2/5, 7/10] (1/2)).take 2)).getD 0 false = true →
        [true, false].getD 0 false = true ∨ (1/2 : ℚ) < [3/10, 2/5, 7/10].getD 0 0) :=
  known_doublet_flags_preserved [true, false] [3/10, 2/5, 7/10] (1/2) 2 0
    (by decide) (by decide) (by decide)

/-- C10: is_doublet_sim.npy is always empty, because the is_doublet array
    only covers the num_cells real cells, while scores_sim.npy and
    preds_sim.npy each have one entry per simulated doublet. -/
theorem sim_output_shapes (orderScore : List ℚ) (orderPred : List Nat)
    (known : List Bool) (t : ℚ) (numCells numDoublets : Nat)
    (hs : orderScore.length = numCells + numDoublets)
    (hp : orderPred.length = numCells + numDoublets)
    (hk : known.length = numCells) :
    isDoubletSimOut
        (finalIsDoublet known ((isLonerDoublet orderScore t).take numCells)) numCells = []
    ∧ (scoresSimOut orderScore numCells).length = numDoublets
    ∧ (predsSimOut orderPred numCells).length = numDoublets := by
  refine ⟨?_, ?_, ?_⟩
  · apply List.drop_eq_nil_of_le
    simp [finalIsDoublet, isLonerDoublet, List.length_zipWith, List.length_take, hk]
  · simp [scoresSimOut, hs]
  · simp [predsSimOut, hp]

/-- Witness for C10 with two real cells and one simulated doublet. -/
theorem sim_output_shapes_witness :
    isDoubletSimOut
        (finalIsDoublet [true, false] ((isLonerDoublet [3/5, 2/5, 7/10] (1/2)).take 2)) 2 = []
    ∧ (scoresSimOut [3/5, 2/5, 7/10] 2).length = 1
    ∧ (predsSimOut [1, 0, 1] 2).length = 1 :=
  sim_output_shapes [3/5, 2/5, 7/10] [1, 0, 1] [true, false] (1/2) 2 1
    (by decide) (by decide) (by decide)

/-- Ascending sort of a score list; the order that partitioning is measured
    against. -/
def pySort (l : List ℚ) : List ℚ :=
  List.insertionSort (· ≤ ·) l

/-- Model of np.argpartition(a, kth): an index permutation such that the
    element at position kth is in its sorted position and every element
    before it is no larger.  A full argsort satisfies this contract for
    every kth, so the model sorts the indices of a by their score; the kth
    argument itself only matters for the domain check kth < len(a), which
    the caller performs. -/
def argpartition (a : List ℚ) (kth : Nat) : List Nat :=
  List.insertionSort (fun i j => a.getD i 0 ≤ a.getD j 0) (List.range a.length)

/-- Model of np.max: the maximum of a nonempty array, none on an empty one
    (where numpy raises). -/
def npMax (l : List ℚ) : Option ℚ :=
  match l with
  | [] => none
  | x :: xs => some (xs.foldl max x)

/-- Translation of the threshold selection in main.  With no expected
    number of doublets the threshold is 0.5.  With an expected number e the
    script sets k = len(loner_scores) - e, asserts k > 0 (none on failure),
    computes idx = np.argpartition(loner_scores, k) - which demands
    k < len(loner_scores) and raises a ValueError otherwise (none) - and
    takes threshold = np.max(loner_scores[idx[:k]]). -/
def computeThreshold (scores : List ℚ) (expected : Option Int) : Option ℚ :=
  match expected with
  | none => some (1 / 2)
  | some e =>
      let k : Int := (scores.length : Int) - e
      if 0 < k then
        if k < (scores.length : Int) then
          npMax (((argpartition scores k.toNat).take k.toNat).map
                   (fun i => scores.getD i 0))
        else none
      else none

/-- The k smallest scores: the first k entries of the ascending sort.  This
    is the notion the spec describes the threshold with. -/
def kSmallestScores (scores : List ℚ) (k : Nat) : List ℚ :=
  (pySort scores).take k

/-- Reading every index of a list in order gives back the list. -/
theorem map_getD_range : ∀ (l : List ℚ),
    (List.range l.length).map (fun i => l.getD i 0) = l
  | [] => rfl
  | a :: l => by
    rw [List.length_cons, List.range_succ_eq_map, List.map_cons, List.map_map]
    exact congrArg (a :: ·) (map_getD_range l)

/-- The scores read along the argpartition index order are the sorted
    scores: the index list is a permutation of all indices sorted by score,
    so mapping the lookup over it yields an ascending rearrangement of the
    scores, which is exactly pySort. -/
theorem argpartition_map_eq_pySort (a : List ℚ) (kth : Nat) :
    (argpartition a kth).map (fun i => a.getD i 0) = pySort a := by
  haveI hto : IsTotal Nat (fun i j => a.getD i 0 ≤ a.getD j 0) :=
    ⟨fun i j => le_total _ _⟩
  haveI htr : IsTrans Nat (fun i j => a.getD i 0 ≤ a.getD j 0) :=
    ⟨fun i j k hij hjk => le_trans hij hjk⟩
  have h1 : List.Perm ((argpartition a kth).map (fun i => a.getD i 0))
      ((List.range a.length).map (fun i => a.getD i 0)) :=
    (List.perm_insertionSort _ _).map _
  rw [map_getD_range a] at h1
  have h2 : List.Perm (pySort a) a := List.perm_insertionSort _ _
  exact List.eq_of_perm_of_sorted (h1.trans h2.symm)
    (List.Pairwise.map _ (fun i j h => h)
      (List.sorted_insertionSort _ (List.range a.length)))
    (List.sorted_insertionSort _ a)

/-- On a nonempty ascending list, np.max returns the last element. -/
theorem npMax_sorted : ∀ (l : List ℚ), List.Sorted (· ≤ ·) l → l ≠ [] →
    npMax l = some (l.getD (l.length - 1) 0)
  | [], _, hne => absurd rfl hne
  | [x], _, _ => rfl
  | x :: y :: t, hs, _ => by
    have hxy : x ≤ y := List.rel_of_sorted_cons hs y (List.mem_cons_self y t)
    have ih := npMax_sorted (y :: t) (List.Sorted.of_cons hs) (by simp)
    show some (List.foldl max (max x y) t) = _
    rw [max_eq_right hxy]
    exact ih

/-- C2 amended: with no expected doublet count the threshold is 0.5; with an
    expected count e of at least 1 (so that 0 < k < num_cells for
    k = num_cells - e), the threshold is the maximum of the k smallest
    real-cell scores, equivalently the k-th smallest score, and a cell is
    called a doublet exactly when its score strictly exceeds the
    threshold. -/
theorem threshold_spec (scores : List ℚ) (e : Int) (t : ℚ)
    (he : 1 ≤ e) (hk : 0 < (scores.length : Int) - e)
    (ht : computeThreshold scores (some e) = some t) :
    computeThreshold scores none = some (1 / 2)
    ∧ npMax (kSmallestScores scores ((scores.length : Int) - e).toNat) = some t
    ∧ t = (pySort scores).getD ((((scores.length : Int) - e).toNat) - 1) 0
    ∧ ∀ c, c < scores.length →
        ((isLonerDoublet scores t).getD c false = true ↔ t < scores.getD c 0) := by
  have hklt : ((scores.length : Int) - e) < (scores.length : Int) := by omega
  have hkn1 : 1 ≤ ((scores.length : Int) - e).toNat := by omega
  have hknlen : ((scores.length : Int) - e).toNat ≤ scores.length := by omega
  have hev : computeThreshold scores (some e)
      = npMax ((pySort scores).take ((scores.length : Int) - e).toNat) := by
    show (if 0 < (scores.length : Int) - e then
            if (scores.length : Int) - e < (scores.length : Int) then
              npMax (((argpartition scores ((scores.length : Int) - e).toNat).take
                        ((scores.length : Int) - e).toNat).map (fun i => scores.getD i 0))
            else none
          else none)
        = npMax ((pySort scores).take ((scores.length : Int) - e).toNat)
    rw [if_pos hk, if_pos hklt, List.map_take, argpartition_map_eq_pySort]
  rw [hev] at ht
  have hsorted : List.Sorted (· ≤ ·)
      ((pySort scores).take ((scores.length : Int) - e).toNat) :=
    List.Pairwise.sublist (List.take_sublist _ (pySort scores))
      (List.sorted_insertionSort _ scores)
  have hlen : ((pySort scores).take ((scores.length : Int) - e).toNat).length
      = ((scores.length : Int) - e).toNat := by
    rw [List.length_take]
    unfold pySort
    rw [List.length_insertionSort]
    omega
  have hne : (pySort scores).take ((scores.length : Int) - e).toNat ≠ [] := by
    intro hnil
    rw [hnil] at hlen
    simp at hlen
    omega
  have hmax := npMax_sorted _ hsorted hne
  rw [hlen, take_getD _ _ _ _ (by omega)] at hmax
  refine ⟨rfl, ht, ?_, ?_⟩
  · rw [hmax] at ht
    exact (Option.some_injective _ ht).symm
  · intro c hc
    unfold isLonerDoublet
    rw [map_getD_of_lt _ 0 false _ _ hc]
    exact decide_eq_true_iff

/-- Witness for C2 with scores [3, 1, 2] and one expected doublet: k = 2 and
    the threshold is 2, the larger of the two smallest scores. -/
theorem threshold_spec_witness :
    computeThreshold [(3 : ℚ), 1, 2] none = some (1 / 2)
    ∧ npMax (kSmallestScores [(3 : ℚ), 1, 2]
        ((([(3 : ℚ), 1, 2].length : Int) - 1).toNat)) = some 2
    ∧ (2 : ℚ) = (pySort [(3 : ℚ), 1, 2]).getD
        (((([(3 : ℚ), 1, 2].length : Int) - 1).toNat) - 1) 0
    ∧ ∀ c, c < [(3 : ℚ), 1, 2].length →
        ((isLonerDoublet [(3 : ℚ), 1, 2] 2).getD c false = true
          ↔ (2 : ℚ) < [(3 : ℚ), 1, 2].getD c 0) :=
  threshold_spec [(3 : ℚ), 1, 2] 1 2 (by decide) (by decide) (by decide)

/-- Counterexample for C2 as stated: with expected count e = 0 the assert
    k > 0 passes (k equals the cell count), but np.argpartition demands
    kth < len(scores) and raises a ValueError, so no threshold is produced,
    although the claim promises the maximum of the k smallest scores
    (here: the maximum of both scores). -/
theorem threshold_counterexample :
    0 < (([(0 : ℚ), 1].length : Int) - 0)
    ∧ computeThreshold [(0 : ℚ), 1] (some 0) = none
    ∧ npMax (kSmallestScores [(0 : ℚ), 1] 2) = some 1 := by
  refine ⟨by decide, by decide, by decide⟩

/-- Model of np.unique on label codes: the sorted list of distinct values
    occurring in the array. -/
def npUnique (l : List Nat) : List Nat :=
  (List.range (l.foldl max 0 + 1)).filter (fun x => decide (x ∈ l))

/-- Modelled from scvi: the GeneExpressionDataset constructor passes the
    label column through arrange_categories, which remaps each label value
    to its index in the sorted list of distinct values, so stored label
    codes always form 0 .. k-1. -/
def arrangeCategories (l : List Nat) : List Nat :=
  l.map (fun x => (npUnique l).indexOf x)

/-- Labels built by make_gene_expression_dataset: np.ones((n, 1)) is passed
    as the labels argument and the constructor remaps the single category
    to code 0. -/
def makeGeneExpressionDatasetLabels (n : Nat) : List Nat :=
  arrangeCategories (List.replicate n 1)

/-- Labels of the simulated-doublet dataset after main executes
    doublet_data.labels += 1. -/
def doubletDataLabels (n : Nat) : List Nat :=
  (makeGeneExpressionDatasetLabels n).map (· + 1)

/-- Labels of the loaded real dataset after main executes
    scvi_data.labels[known_doublets] += 1.  Modelled loader behaviour: a
    loom/h5ad file without a stored label column yields all-zero labels, the
    assumed input of the pipeline. -/
def realDataLabels (known : List Bool) : List Nat :=
  known.map (fun b => if b then 1 else 0)

/-- Labels of the concatenated classifier dataset:
    GeneExpressionDataset.concat_datasets stacks the label columns (the
    datasets carry no cell_types) and the constructor of the combined
    dataset remaps them through arrange_categories once more. -/
def classifierDataLabels (known : List Bool) (numDoublets : Nat) : List Nat :=
  arrangeCategories (realDataLabels known ++ doubletDataLabels numDoublets)

/-- Upper bound on a left fold of max. -/
theorem foldl_max_le : ∀ (l : List Nat) (b m : Nat), b ≤ m → (∀ x ∈ l, x ≤ m) →
    l.foldl max b ≤ m
  | [], _, _, hb, _ => hb
  | a :: l, b, m, hb, h => by
    show (l.foldl max (max b a)) ≤ m
    exact foldl_max_le l (max b a) m
      (max_le hb (h a (List.mem_cons_self a l)))
      (fun x hx => h x (List.mem_cons_of_mem a hx))

/-- The base is below a left fold of max. -/
theorem le_foldl_max_base : ∀ (l : List Nat) (b : Nat), b ≤ l.foldl max b
  | [], _ => le_refl _
  | a :: l, b => by
    show b ≤ l.foldl max (max b a)
    exact le_trans (le_max_left b a) (le_foldl_max_base l (max b a))

/-- Every member is below a left fold of max. -/
theorem le_foldl_max_mem : ∀ (l : List Nat) (b x : Nat), x ∈ l → x ≤ l.foldl max b
  | [], _, x, hx => absurd hx (by simp)
  | a :: l, b, x, hx => by
    show x ≤ l.foldl max (max b a)
    rcases List.mem_cons.mp hx with h | h
    · subst h
      exact le_trans (le_max_right b x) (le_foldl_max_base l (max b x))
    · exact le_foldl_max_mem l (max b a) x h

/-- Membership in the model of np.unique agrees with membership in the
    array. -/
theorem mem_npUnique (l : List Nat) (x : Nat) : x ∈ npUnique l ↔ x ∈ l := by
  unfold npUnique
  rw [List.mem_filter]
  constructor
  · intro h
    exact of_decide_eq_true h.2
  · intro h
    refine ⟨List.mem_range.mpr ?_, decide_eq_true h⟩
    exact Nat.lt_succ_of_le (le_foldl_max_mem l 0 x h)

/-- np.unique of an array of zeros and ones containing both values. -/
theorem npUnique_zero_one (l : List Nat) (h01 : ∀ x ∈ l, x ≤ 1)
    (h0 : 0 ∈ l) (h1 : 1 ∈ l) : npUnique l = [0, 1] := by
  have hmax : l.foldl max 0 = 1 :=
    le_antisymm (foldl_max_le l 0 1 (by omega) h01) (le_foldl_max_mem l 0 1 h1)
  unfold npUnique
  rw [hmax]
  show ([0, 1].filter (fun x => decide (x ∈ l))) = [0, 1]
  simp [List.filter, h0, h1]

/-- np.unique of a nonempty array of zeros. -/
theorem npUnique_all_zero (l : List Nat) (h0 : 0 ∈ l)
    (hall : ∀ x ∈ l, x = 0) : npUnique l = [0] := by
  have hmax : l.foldl max 0 = 0 :=
    le_antisymm (foldl_max_le l 0 0 (le_refl 0) (fun x hx => le_of_eq (hall x hx)))
      (Nat.zero_le _)
  unfold npUnique
  rw [hmax]
  show ([0].filter (fun x => decide (x ∈ l))) = [0]
  simp [List.filter, h0]

/-- arrange_categories leaves an array of zero/one codes containing 0
    unchanged: the distinct values are already an initial segment. -/
theorem arrangeCategories_id (l : List Nat) (h01 : ∀ x ∈ l, x ≤ 1)
    (h0 : 0 ∈ l) : arrangeCategories l = l := by
  unfold arrangeCategories
  by_cases h1 : 1 ∈ l
  · rw [npUnique_zero_one l h01 h0 h1]
    rw [show (l.map (fun x => List.indexOf x [0, 1])) = l.map id from
      List.map_congr_left (fun x hx => by
        have hx1 : x ≤ 1 := h01 x hx
        interval_cases x
        · rfl
        · rfl)]
    exact List.map_id l
  · rw [npUnique_all_zero l h0 (fun x hx => by
      rcases Nat.lt_or_ge x 1 with h | h
      · omega
      · exact absurd hx (by
          have : x = 1 := le_antisymm (h01 x hx) h
          rw [this] at hx ⊢
          exact fun _ => h1 hx))]
    rw [show (l.map (fun x => List.indexOf x [0])) = l.map id from
      List.map_congr_left (fun x hx => by
        have hx0 : x = 0 := by
          rcases Nat.lt_or_ge x 1 with h | h
          · omega
          · have : x = 1 := le_antisymm (h01 x hx) h
            rw [this] at hx
            exact absurd hx h1
        rw [hx0]
        rfl)]
    exact List.map_id l

/-- The simulated-doublet labels are all ones: the constructor remaps the
    all-ones column to zeros and main then adds one. -/
theorem doubletDataLabels_eq (n : Nat) : doubletDataLabels n = List.replicate n 1 := by
  unfold doubletDataLabels makeGeneExpressionDatasetLabels arrangeCategories
  cases n with
  | zero => rfl
  | succ m =>
    have hu : npUnique (List.replicate (m + 1) 1) = [1] := by
      have hmax : (List.replicate (m + 1) 1).foldl max 0 = 1 :=
        le_antisymm
          (foldl_max_le _ 0 1 (by omega)
            (fun x hx => le_of_eq (List.eq_of_mem_replicate hx)))
          (le_foldl_max_mem _ 0 1 (by simp [List.mem_replicate]))
      unfold npUnique
      rw [hmax]
      show ([0, 1].filter (fun x => decide (x ∈ List.replicate (m + 1) 1))) = [1]
      simp [List.filter, List.mem_replicate]
    rw [hu, List.map_replicate, List.map_replicate]
    rfl

/-- Index access inside a replicate. -/
theorem replicate_getD : ∀ (n c : Nat), c < n → (List.replicate n 1).getD c 0 = 1
  | 0, c, h => absurd h (by omega)
  | n + 1, 0, _ => rfl
  | n + 1, c + 1, h => by
    show (List.replicate n 1).getD c 0 = 1
    exact replicate_getD n c (Nat.lt_of_succ_lt_succ h)

/-- C1 amended: in the classifier dataset every real cell not flagged as a
    known doublet carries label 0, every known-doublet cell and every
    synthetic doublet carries label 1, and - provided at least one real
    cell is a singlet and at least one cell is doublet-labeled - the set of
    distinct labels is exactly two values, 0 and 1 (the assert in main
    checks len(np.unique(labels)) == 2). -/
theorem classifier_labels_spec (known : List Bool) (nd : Nat)
    (hsing : false ∈ known) (hdoub : 0 < nd ∨ true ∈ known) :
    classifierDataLabels known nd = realDataLabels known ++ List.replicate nd 1
    ∧ (∀ c, c < known.length →
        (classifierDataLabels known nd).getD c 0
          = if known.getD c false then 1 else 0)
    ∧ (∀ c, known.length ≤ c → c < known.length + nd →
        (classifierDataLabels known nd).getD c 0 = 1)
    ∧ npUnique (classifierDataLabels known nd) = [0, 1] := by
  have hL : classifierDataLabels known nd
      = arrangeCategories (realDataLabels known ++ List.replicate nd 1) := by
    unfold classifierDataLabels
    rw [doubletDataLabels_eq]
  have h01 : ∀ x ∈ realDataLabels known ++ List.replicate nd 1, x ≤ 1 := by
    intro x hx
    rcases List.mem_append.mp hx with h | h
    · obtain ⟨b, _, hb⟩ := List.mem_map.mp h
      rw [← hb]
      cases b <;> simp
    · exact le_of_eq (List.eq_of_mem_replicate h)
  have h0 : 0 ∈ realDataLabels known ++ List.replicate nd 1 := by
    apply List.mem_append.mpr
    left
    exact List.mem_map.mpr ⟨false, hsing, rfl⟩
  have h1 : 1 ∈ realDataLabels known ++ List.replicate nd 1 := by
    apply List.mem_append.mpr
    rcases hdoub with h | h
    · right
      simp [List.mem_replicate]
      omega
    · left
      exact List.mem_map.mpr ⟨true, h, rfl⟩
  have hid : classifierDataLabels known nd
      = realDataLabels known ++ List.replicate nd 1 := by
    rw [hL]
    exact arrangeCategories_id _ h01 h0
  have hlenreal : (realDataLabels known).length = known.length := by
    unfold realDataLabels
    exact List.length_map known _
  refine ⟨hid, ?_, ?_, ?_⟩
  · intro c hc
    rw [hid, List.getD_append (realDataLabels known) (List.replicate nd 1) 0 c (by omega)]
    exact map_getD_of_lt _ false 0 known c hc
  · intro c hcl hcr
    rw [hid, List.getD_append_right (realDataLabels known) (List.replicate nd 1) 0 c (by omega)]
    rw [hlenreal]
    exact replicate_getD nd (c - known.length) (by omega)
  · rw [hid]
    exact npUnique_zero_one _ h01 h0 h1

/-- Witness for C1 with one singlet real cell and two synthetic doublets:
    labels [0, 1, 1]. -/
theorem classifier_labels_spec_witness :
    classifierDataLabels [false] 2 = realDataLabels [false] ++ List.replicate 2 1
    ∧ (∀ c, c < [false].length →
        (classifierDataLabels [false] 2).getD c 0
          = if [false].getD c false then 1 else 0)
    ∧ (∀ c, [false].length ≤ c → c < [false].length + 2 →
        (classifierDataLabels [false] 2).getD c 0 = 1)
    ∧ npUnique (classifierDataLabels [false] 2) = [0, 1] :=
  classifier_labels_spec [false] 2 (by decide) (Or.inl (by decide))

/-- Counterexample for C1 as stated: with a known-doublets file flagging
    cell 1, that real cell carries label 1, not 0, in the classifier
    dataset. -/
theorem classifier_labels_counterexample :
    (classifierDataLabels [false, true] 1).getD 1 0 = 1
    ∧ (classifierDataLabels [false, true] 1).getD 1 0 ≠ 0 := by
  refine ⟨by decide, by decide⟩
